import Mathlib

/-
Verification development for the Nodify repository.

The model is a shallow embedding of the force-directed graph components:
`GraphCanvas` (src/unnamed/part_002, lines 1-447), its older variant
(src/connection-graph/src/components/GraphCanvas/GraphCanvas.tsx) and
`EmailNodeGraph` (src/unnamed/part_002, lines 555-1121).

JavaScript numbers are modelled over `ℚ` wrapped in `JNum`, whose `nan`
constructor stands for every non-finite JS value (NaN, Infinity, -Infinity).
Transcendental library calls (`Math.sqrt`, `Math.cos`, `Math.sin`), `Math.PI`
and `Math.random()` draws are passed in as parameters, since the claims under
verification never depend on their analytic values, only on how the code
combines them.
-/

/-- A JavaScript number: `num q` is a finite value, `nan` abstracts every
non-finite result (NaN as well as ±Infinity). -/
inductive JNum where
  | num (q : ℚ)
  | nan
deriving DecidableEq

namespace JNum

/-- JS addition: any non-finite operand poisons the result. -/
def add : JNum → JNum → JNum
  | num a, num b => num (a + b)
  | _, _ => nan

/-- JS subtraction. -/
def sub : JNum → JNum → JNum
  | num a, num b => num (a - b)
  | _, _ => nan

/-- JS multiplication; note `0 * NaN = NaN` and `0 * Infinity = NaN`, so any
`nan` operand yields `nan`. -/
def mul : JNum → JNum → JNum
  | num a, num b => num (a * b)
  | _, _ => nan

/-- JS division; division by zero gives a non-finite value (±Infinity or NaN),
collapsed to `nan` here. -/
def div : JNum → JNum → JNum
  | num a, num b => if b = 0 then nan else num (a / b)
  | _, _ => nan

instance : Add JNum := ⟨add⟩
instance : Sub JNum := ⟨sub⟩
instance : Mul JNum := ⟨mul⟩
instance : Div JNum := ⟨div⟩

theorem num_add (a b : ℚ) : num a + num b = num (a + b) := rfl
theorem num_sub (a b : ℚ) : num a - num b = num (a - b) := rfl
theorem num_mul (a b : ℚ) : num a * num b = num (a * b) := rfl
theorem num_div (a b : ℚ) (hb : b ≠ 0) : num a / num b = num (a / b) := by
  show div _ _ = _
  simp [div, hb]

end JNum

/-- JS `x || y` on numbers: `x` is falsy exactly when it is `0` or `NaN`. -/
def jsOr : JNum → JNum → JNum
  | .num a, b => if a = 0 then b else .num a
  | .nan, b => b

/-- `Math.sqrt` lifted to `JNum`, parametrised by an abstract square root
`s : ℚ → ℚ` on nonnegative rationals; negative and non-finite inputs give
non-finite results. -/
def jsqrt (s : ℚ → ℚ) : JNum → JNum
  | .num q => if q < 0 then .nan else .num (s q)
  | .nan => .nan

/-- A connection record as the graph consumes it (`ConnectionNode` from
`@/types`, fields used by part_002: `id`, `degree`, `connectedThrough`;
`degree` is an arbitrary number at runtime — the API route defaults it with
`(row.DEGREE as number) || 1`). -/
structure ConnectionNode where
  id : String
  degree : Nat
  connectedThrough : Option String
deriving DecidableEq

/-- Seed-time radius table (part_002 lines 118-123):
`{1:120, 2:220, 3:320}[conn.degree] || 150` — the three table values are
truthy, anything else yields `undefined || 150 = 150`. -/
def seedRadius (degree : Nat) : ℚ :=
  if degree = 1 then 120
  else if degree = 2 then 220
  else if degree = 3 then 320
  else 150

/-- `maxRadius` of the tick-time ring table (part_002 line 201):
`Math.min(width, height) / 2 - 60`. -/
def maxRingRadius (w h : ℚ) : ℚ := min w h / 2 - 60

/-- Tick-time ring radius lookup (part_002 lines 202-206 and 214):
`degreeRadius = {1: maxRadius*0.3, 2: maxRadius*0.6, 3: maxRadius*0.9}` and
`const targetRadius = degreeRadius[degree]`. There is no fallback here: a
degree outside the table reads `undefined`, which is non-finite in every
subsequent arithmetic use, hence `nan`. -/
def forceTargetRadius (w h : ℚ) (degree : Nat) : JNum :=
  if degree = 1 then .num (maxRingRadius w h * (3 / 10))
  else if degree = 2 then .num (maxRingRadius w h * (6 / 10))
  else if degree = 3 then .num (maxRingRadius w h * (9 / 10))
  else .nan

/-- C5: for ring levels L1 < L2 in {1,2,3} and any viewport with
`min(width, height) > 120` (so `maxRadius > 0`), the tick-time target radius
for L1 is strictly below the one for L2, and every such radius — in
particular the level-3 one — stays within `min(width, height)/2 - 60`. -/
theorem ring_radius_monotone (w h : ℚ) (l1 l2 : Nat)
    (h1 : l1 = 1 ∨ l1 = 2 ∨ l1 = 3) (h2 : l2 = 1 ∨ l2 = 2 ∨ l2 = 3)
    (hlt : l1 < l2) (hv : 120 < min w h) :
    ∃ r1 r2 : ℚ, forceTargetRadius w h l1 = .num r1 ∧
      forceTargetRadius w h l2 = .num r2 ∧ r1 < r2 ∧ r2 ≤ maxRingRadius w h := by
  have hm : 0 < maxRingRadius w h := by
    unfold maxRingRadius
    linarith
  rcases h1 with rfl | rfl | rfl <;> rcases h2 with rfl | rfl | rfl
  · exact absurd hlt (by decide)
  · exact ⟨maxRingRadius w h * (3 / 10), maxRingRadius w h * (6 / 10), rfl, rfl,
      by nlinarith, by nlinarith⟩
  · exact ⟨maxRingRadius w h * (3 / 10), maxRingRadius w h * (9 / 10), rfl, rfl,
      by nlinarith, by nlinarith⟩
  · exact absurd hlt (by decide)
  · exact absurd hlt (by decide)
  · exact ⟨maxRingRadius w h * (6 / 10), maxRingRadius w h * (9 / 10), rfl, rfl,
      by nlinarith, by nlinarith⟩
  · exact absurd hlt (by decide)
  · exact absurd hlt (by decide)
  · exact absurd hlt (by decide)

/-- Witness for `ring_radius_monotone` at an 800×600 viewport, levels 1 < 2. -/
theorem ring_radius_monotone_witness :
    (1 : Nat) < 2 ∧ (120 : ℚ) < min 800 600 ∧
    ∃ r1 r2 : ℚ, forceTargetRadius 800 600 1 = .num r1 ∧
      forceTargetRadius 800 600 2 = .num r2 ∧ r1 < r2 ∧ r2 ≤ maxRingRadius 800 600 :=
  ⟨by decide, by norm_num,
    ring_radius_monotone 800 600 1 2 (Or.inl rfl) (Or.inr (Or.inl rfl))
      (by decide) (by norm_num)⟩

/-- C7 counterexample: at an 800×600 viewport a node classified with degree 4
gets a non-finite tick-time target radius, and in particular is not treated as
ring-2 by the radial force, contrary to the claim. -/
theorem unknown_degree_force_counterexample :
    forceTargetRadius 800 600 4 = .nan ∧
    forceTargetRadius 800 600 4 ≠ forceTargetRadius 800 600 2 := by
  constructor
  · rfl
  · decide

/-- C7 amended: a classification outside {1,2,3} is assigned the documented
fallback radius 150 when seeding (and the lookup is total, so nothing throws),
but the per-tick radial force has no fallback for it: its target radius is the
non-finite `undefined`. -/
theorem unknown_degree_fallback (w h : ℚ) (d : Nat)
    (hd : ¬(d = 1 ∨ d = 2 ∨ d = 3)) :
    seedRadius d = 150 ∧ forceTargetRadius w h d = .nan := by
  push_neg at hd
  obtain ⟨hd1, hd2, hd3⟩ := hd
  constructor
  · simp [seedRadius, hd1, hd2, hd3]
  · simp [forceTargetRadius, hd1, hd2, hd3]

/-- Witness for `unknown_degree_fallback` at degree 7. -/
theorem unknown_degree_fallback_witness :
    ¬((7 : Nat) = 1 ∨ (7 : Nat) = 2 ∨ (7 : Nat) = 3) ∧
    seedRadius 7 = 150 ∧ forceTargetRadius 800 600 7 = .nan :=
  ⟨by decide, unknown_degree_fallback 800 600 7 (by decide)⟩

/-- A simulation node (`SimNode` of part_002): `degree` is
`connection?.degree` (`none` for the user node, which carries no connection
payload); `fx`/`fy` are the d3 pin coordinates (`null` when free). -/
structure SimNode where
  id : String
  isUser : Bool
  degree : Option Nat
  x : JNum
  y : JNum
  vx : JNum
  vy : JNum
  fx : Option JNum
  fy : Option JNum
deriving DecidableEq

/-- The anchor node (part_002 lines 76-83): pinned at the viewport center. -/
def userNode (w h : ℚ) : SimNode :=
  { id := "USER", isUser := true, degree := none,
    x := .num (w / 2), y := .num (h / 2),
    vx := .num 0, vy := .num 0,
    fx := some (.num (w / 2)), fy := some (.num (h / 2)) }

/-- Everything the model builder closes over: `Math.PI`, the viewport, the
abstract `Math.cos`/`Math.sin`, the `Math.random()` draw consumed by node
index, and the Position Store `nodePositionsRef.current`. -/
structure BuildCtx where
  pi : ℚ
  w : ℚ
  h : ℚ
  cosF : ℚ → ℚ
  sinF : ℚ → ℚ
  rnd : Nat → ℚ
  store : String → Option (JNum × JNum)

/-- The `firstDegree` filter (part_002 line 89). -/
def firstDegree (conns : List ConnectionNode) : List ConnectionNode :=
  conns.filter (fun c => c.degree == 1)

/-- The `angleByFirstDegree` map (part_002 lines 90-93): the i-th
first-degree connection gets angle `(i / n) * π * 2`; lookups of ids outside
the map return `undefined` (`none`). Ids are unique per the data model, so
the first matching index is the map entry. -/
def firstDegreeAngle (pi : ℚ) (conns : List ConnectionNode) (id : String) : Option ℚ :=
  let fd := firstDegree conns
  (fd.findIdx? (fun c => c.id == id)).map
    (fun i => ((i : ℚ) / (fd.length : ℚ)) * pi * 2)

/-- JS `x || d` where `x` is a map lookup that may be `undefined`: `undefined`
and `0` are both falsy. -/
def jsOrQ (v : Option ℚ) (dflt : ℚ) : ℚ :=
  match v with
  | none => dflt
  | some q => if q = 0 then dflt else q

/-- Seed angle of one connection (part_002 lines 99-116), with `r` the value
of the `Math.random()` draw for this node. Empty-string parent references are
falsy in JS (`if (conn.connectedThrough)`), and a missing grandparent id
falls back to `''` (`grandparent?.id || ''`). `connById` lookups use the
first match, as ids are unique per the data model. -/
def seedAngle (pi : ℚ) (conns : List ConnectionNode) (r : ℚ)
    (conn : ConnectionNode) : ℚ :=
  if conn.degree = 1 then
    jsOrQ (firstDegreeAngle pi conns conn.id) (r * pi * 2)
  else
    match conn.connectedThrough with
    | some p =>
      if p = "" then r * pi * 2
      else
        match conns.find? (fun c => c.id == p) with
        | some parent =>
          if parent.degree = 1 then
            jsOrQ (firstDegreeAngle pi conns parent.id) 0 + (r - 1 / 2) * (1 / 2)
          else
            match parent.connectedThrough with
            | some gp =>
              if gp = "" then r * pi * 2
              else
                let gid := match conns.find? (fun c => c.id == gp) with
                  | some g => g.id
                  | none => ""
                jsOrQ (firstDegreeAngle pi conns gid) 0 + (r - 1 / 2) * (7 / 10)
            | none => r * pi * 2
        | none => r * pi * 2
    | none => r * pi * 2

/-- Build one simulation node from a connection (part_002 lines 95-131):
stored position if the Position Store has the id (`savedPos?.x ?? …`), else
the angle/radius seed around the viewport center. -/
def buildConnNode (ctx : BuildCtx) (conns : List ConnectionNode) (r : ℚ)
    (conn : ConnectionNode) : SimNode :=
  let saved := ctx.store conn.id
  let angle := seedAngle ctx.pi conns r conn
  let radius := seedRadius conn.degree
  { id := conn.id, isUser := false, degree := some conn.degree,
    x := match saved with
      | some p => p.1
      | none => .num (ctx.w / 2 + ctx.cosF angle * radius),
    y := match saved with
      | some p => p.2
      | none => .num (ctx.h / 2 + ctx.sinF angle * radius),
    vx := .num 0, vy := .num 0, fx := none, fy := none }

/-- Helper for `connectionNodes`: builds the suffix `l` of the collection,
`k` being the index of its head in the full collection. -/
def connectionNodesAux (ctx : BuildCtx) (all : List ConnectionNode) :
    Nat → List ConnectionNode → List SimNode
  | _, [] => []
  | k, c :: cs =>
    buildConnNode ctx all (ctx.rnd k) c :: connectionNodesAux ctx all (k + 1) cs

/-- The `connectionNodes` array (part_002 line 95). -/
def connectionNodes (ctx : BuildCtx) (conns : List ConnectionNode) : List SimNode :=
  connectionNodesAux ctx conns 0 conns

/-- The full node array (part_002 line 133): `[userNode, ...connectionNodes]`. -/
def buildNodes (ctx : BuildCtx) (conns : List ConnectionNode) : List SimNode :=
  userNode ctx.w ctx.h :: connectionNodes ctx conns

theorem connectionNodesAux_getElem (ctx : BuildCtx) (all : List ConnectionNode) :
    ∀ (l : List ConnectionNode) (k i : Nat),
      (connectionNodesAux ctx all k l)[i]? =
        (l[i]?).map (fun c => buildConnNode ctx all (ctx.rnd (k + i)) c) := by
  intro l
  induction l with
  | nil => intro k i; simp [connectionNodesAux]
  | cons c cs ih =>
    intro k i
    cases i with
    | zero => simp [connectionNodesAux]
    | succ n =>
      simp only [connectionNodesAux, List.getElem?_cons_succ]
      have hkn : k + 1 + n = k + (n + 1) := by omega
      rw [ih (k + 1) n, hkn]

/-- C2: rebuilding from the same collection with a Position Store entry for a
node's id reproduces the stored position exactly (`savedPos?.x ?? …` takes any
present stored number); the angle/radius seed is used only when the store has
no entry for the id. -/
theorem rebuild_uses_saved_positions (ctx : BuildCtx) (conns : List ConnectionNode)
    (i : Nat) (conn : ConnectionNode) (hg : conns[i]? = some conn) :
    ∃ n : SimNode, (connectionNodes ctx conns)[i]? = some n ∧ n.id = conn.id ∧
      (∀ px py : JNum, ctx.store conn.id = some (px, py) → n.x = px ∧ n.y = py) ∧
      (ctx.store conn.id = none →
        n.x = .num (ctx.w / 2 +
          ctx.cosF (seedAngle ctx.pi conns (ctx.rnd i) conn) * seedRadius conn.degree) ∧
        n.y = .num (ctx.h / 2 +
          ctx.sinF (seedAngle ctx.pi conns (ctx.rnd i) conn) * seedRadius conn.degree)) := by
  refine ⟨buildConnNode ctx conns (ctx.rnd i) conn, ?_, rfl, ?_, ?_⟩
  · rw [connectionNodes, connectionNodesAux_getElem ctx conns conns 0 i, hg]
    simp
  · intro px py hs
    simp [buildConnNode, hs]
  · intro hs
    simp [buildConnNode, hs]

/-- Witness for `rebuild_uses_saved_positions`: one connection `"a"` with
stored position (10, 20) is rebuilt exactly there. -/
theorem rebuild_uses_saved_positions_witness :
    ∃ n : SimNode,
      (connectionNodes
        ⟨3, 800, 600, fun _ => 1, fun _ => 0, fun _ => 0,
          fun s => if s = "a" then some (.num 10, .num 20) else none⟩
        [⟨"a", 1, none⟩])[0]? = some n ∧
      n.id = "a" ∧ n.x = .num 10 ∧ n.y = .num 20 := by
  obtain ⟨n, hn, hid, hsaved, _⟩ :=
    rebuild_uses_saved_positions
      ⟨3, 800, 600, fun _ => 1, fun _ => 0, fun _ => 0,
        fun s => if s = "a" then some (.num 10, .num 20) else none⟩
      [⟨"a", 1, none⟩] 0 ⟨"a", 1, none⟩ (by decide)
  obtain ⟨hx, hy⟩ := hsaved (.num 10) (.num 20) (by decide)
  exact ⟨n, hn, hid, hx, hy⟩

/-- C3 counterexample: with two ring-1 connections and `π` taken as 3, the
ring-1 node at index 0 does not get the claimed angle `2π·0/2 = 0`: its map
entry 0 is falsy, so `angleByFirstDegree.get(id) || Math.random()*π*2` falls
back to the random draw (here 1/2, giving angle 3). -/
theorem ring1_angle_counterexample :
    seedAngle 3 [⟨"a", 1, none⟩, ⟨"b", 1, none⟩] (1 / 2) ⟨"a", 1, none⟩ ≠
      ((0 : ℚ) / 2) * 3 * 2 := by
  have hfa : firstDegreeAngle 3 [⟨"a", 1, none⟩, ⟨"b", 1, none⟩] "a" = some 0 := by
    simp [firstDegreeAngle, firstDegree, List.findIdx?_cons]
  rw [seedAngle, if_pos rfl, hfa, jsOrQ]
  norm_num

theorem findIdx_key_of_nodup {α : Type} (key : α → String) :
    ∀ (l : List α) (i k : Nat) (a : α),
      (l.map key).Nodup → l[i]? = some a →
      l.findIdx? (fun x => key x == key a) k = some (k + i) := by
  intro l
  induction l with
  | nil =>
    intro i k a _ ha
    simp at ha
  | cons x xs ih =>
    intro i k a hnd ha
    rw [List.map_cons, List.nodup_cons] at hnd
    cases i with
    | zero =>
      simp only [List.getElem?_cons_zero, Option.some.injEq] at ha
      subst ha
      simp [List.findIdx?_cons]
    | succ n =>
      simp only [List.getElem?_cons_succ] at ha
      have hmem : a ∈ xs := by
        obtain ⟨hlt, rfl⟩ := List.getElem?_eq_some.mp ha
        exact List.getElem_mem hlt
      have hx : (key x == key a) = false := by
        rw [beq_eq_false_iff_ne]
        intro he
        exact hnd.1 (he ▸ List.mem_map_of_mem key hmem)
      rw [List.findIdx?_cons, hx]
      have := ih n (k + 1) a hnd.2 ha
      rw [if_neg (by simp), this]
      congr 1
      omega

/-- C3 amended: among the `n` ring-1 connections (with distinct ids), the node
at index `i ≥ 1` gets the evenly spaced seed angle `2π·i/n`; the node at index
0, whose map entry 0 is falsy in the `||` fallback, instead gets the uniform
random angle `r·π·2`. -/
theorem ring1_seed_angles (pi r : ℚ) (conns : List ConnectionNode)
    (hpi : 0 < pi)
    (hnd : ((firstDegree conns).map (fun c => c.id)).Nodup)
    (i : Nat) (c : ConnectionNode) (hi : (firstDegree conns)[i]? = some c) :
    (0 < i → seedAngle pi conns r c =
      ((i : ℚ) / ((firstDegree conns).length : ℚ)) * pi * 2) ∧
    (i = 0 → seedAngle pi conns r c = r * pi * 2) := by
  have hmem : c ∈ firstDegree conns := by
    obtain ⟨hlt, rfl⟩ := List.getElem?_eq_some.mp hi
    exact List.getElem_mem hlt
  have hdeg : c.degree = 1 := by
    have := (List.mem_filter.mp hmem).2
    simpa using this
  have hfind :
      (firstDegree conns).findIdx? (fun x => x.id == c.id) 0 = some i := by
    have := findIdx_key_of_nodup (fun c => c.id) (firstDegree conns) i 0 c hnd hi
    simpa using this
  have hlen : i < (firstDegree conns).length := by
    obtain ⟨hlt, _⟩ := List.getElem?_eq_some.mp hi
    exact hlt
  have hangle : firstDegreeAngle pi conns c.id =
      some (((i : ℚ) / ((firstDegree conns).length : ℚ)) * pi * 2) := by
    rw [firstDegreeAngle]
    rw [hfind]
    rfl
  constructor
  · intro h0
    have hpos : 0 < ((i : ℚ) / ((firstDegree conns).length : ℚ)) * pi * 2 := by
      have hiq : (0 : ℚ) < (i : ℚ) := by exact_mod_cast h0
      have hnq : (0 : ℚ) < ((firstDegree conns).length : ℚ) := by
        have : 0 < (firstDegree conns).length := Nat.lt_of_le_of_lt (Nat.zero_le i) hlen
        exact_mod_cast this
      have := div_pos hiq hnq
      nlinarith
    rw [seedAngle, if_pos hdeg, hangle, jsOrQ, if_neg (ne_of_gt hpos)]
  · intro h0
    subst h0
    rw [seedAngle, if_pos hdeg, hangle]
    norm_num [jsOrQ]

/-- Witness for `ring1_seed_angles`: two ring-1 connections, the one at index
1 gets angle `(1/2)·3·2 = 3` (with `π` taken as 3). -/
theorem ring1_seed_angles_witness :
    (0 : Nat) < 1 ∧
    seedAngle 3 [⟨"a", 1, none⟩, ⟨"b", 1, none⟩] 0 ⟨"b", 1, none⟩ =
      ((1 : ℚ) / ((firstDegree [⟨"a", 1, none⟩, ⟨"b", 1, none⟩]).length : ℚ)) * 3 * 2 :=
  ⟨by decide,
    (ring1_seed_angles 3 0 [⟨"a", 1, none⟩, ⟨"b", 1, none⟩] (by norm_num)
      (by decide) 1 ⟨"b", 1, none⟩ (by decide)).1 (by decide)⟩

/-- The guarded divisor of the radial force (part_002 line 219):
`Math.sqrt(dx*dx + dy*dy) || 1` — a zero (or non-finite) distance is replaced
by 1. -/
def radialDivisor (s : ℚ → ℚ) (dx dy : JNum) : JNum :=
  jsOr (jsqrt s (dx * dx + dy * dy)) (.num 1)

/-- One node's update by the custom radial force (part_002 lines 209-228).
The code iterates over `connectionNodes` and skips entries without a
connection payload; here the same effect is the `degree = none` guard (the
user node is the only node without a payload). Positions are always set at
build time, so the `x === undefined` guard never fires and is omitted. -/
def radialUpdate (s : ℚ → ℚ) (w h alpha : ℚ) (n : SimNode) : SimNode :=
  match n.degree with
  | none => n
  | some deg =>
    let dx := n.x - .num (w / 2)
    let dy := n.y - .num (h / 2)
    let dist := radialDivisor s dx dy
    let diff := forceTargetRadius w h deg - dist
    let strength := JNum.num (alpha * (3 / 20))
    { n with
      vx := jsOr n.vx (.num 0) + dx / dist * diff * strength,
      vy := jsOr n.vy (.num 0) + dy / dist * diff * strength }

/-- The radial force pass over the node array. -/
def radialForceAll (s : ℚ → ℚ) (w h alpha : ℚ) (nodes : List SimNode) : List SimNode :=
  nodes.map (radialUpdate s w h alpha)

/-- d3's per-tick velocity multiplier: `velocityDecay(0.4)` means velocities
are multiplied by `1 - 0.4` each tick. -/
def velocityDecayFactor : ℚ := 1 - 2 / 5

/-- d3's position integration for one node (d3-force `simulation.tick`):
a free node does `x += vx *= velocityDecay`; a pinned node does
`x = fx, vx = 0`. -/
def integrateNode (n : SimNode) : SimNode :=
  let vx := match n.fx with
    | some _ => JNum.num 0
    | none => n.vx * .num velocityDecayFactor
  let x := match n.fx with
    | some c => c
    | none => n.x + n.vx * .num velocityDecayFactor
  let vy := match n.fy with
    | some _ => JNum.num 0
    | none => n.vy * .num velocityDecayFactor
  let y := match n.fy with
    | some c => c
    | none => n.y + n.vy * .num velocityDecayFactor
  { n with x := x, y := y, vx := vx, vy := vy }

/-- An arbitrary per-node velocity increment, covering d3's built-in link,
charge and collision forces: all of them only ever add to `vx`/`vy`. -/
def kickNode (k : JNum × JNum) (n : SimNode) : SimNode :=
  { n with vx := n.vx + k.1, vy := n.vy + k.2 }

def applyKick (kick : Nat → JNum × JNum) : Nat → List SimNode → List SimNode
  | _, [] => []
  | i, n :: ns => kickNode (kick i) n :: applyKick kick (i + 1) ns

/-- Drag start handler (part_002 lines 357-362): pins a non-user node at its
current position; the user node is left untouched. -/
def onDragStart (n : SimNode) : SimNode :=
  if n.isUser then n else { n with fx := some n.x, fy := some n.y }

/-- Drag move handler (part_002 lines 363-367): moves a non-user node's pin
to the pointer. -/
def onDragMove (px py : ℚ) (n : SimNode) : SimNode :=
  if n.isUser then n else { n with fx := some (.num px), fy := some (.num py) }

/-- Drag end handler (part_002 lines 368-373): clears a non-user node's pin. -/
def onDragEnd (n : SimNode) : SimNode :=
  if n.isUser then n else { n with fx := none, fy := none }

/-- Apply an event handler to the node at a given index. -/
def modifyAt (f : SimNode → SimNode) : Nat → List SimNode → List SimNode
  | _, [] => []
  | 0, n :: ns => f n :: ns
  | i + 1, n :: ns => n :: modifyAt f i ns

/-- One observable event of the running view: a simulation tick (with the
current alpha and the velocity contributions of the built-in forces), or a
drag event on the node at index `i`. -/
inductive Step where
  | tick (alpha : ℚ) (kick : Nat → JNum × JNum)
  | dragStart (i : Nat)
  | dragMove (i : Nat) (px py : ℚ)
  | dragEnd (i : Nat)

/-- Step semantics: a tick runs the radial force, the remaining velocity
forces, then d3's integration; drag events run the corresponding handler. -/
def applyStep (s : ℚ → ℚ) (w h : ℚ) : Step → List SimNode → List SimNode
  | .tick alpha kick, nodes =>
    (applyKick kick 0 (radialForceAll s w h alpha nodes)).map integrateNode
  | .dragStart i, nodes => modifyAt onDragStart i nodes
  | .dragMove i px py, nodes => modifyAt (onDragMove px py) i nodes
  | .dragEnd i, nodes => modifyAt onDragEnd i nodes

def runSteps (s : ℚ → ℚ) (w h : ℚ) (init : List SimNode) (steps : List Step) :
    List SimNode :=
  steps.foldl (fun nodes st => applyStep s w h st nodes) init

/-- The anchor invariant: a user node sits at the viewport center with its
pin at the viewport center. -/
def anchorOK (w h : ℚ) (n : SimNode) : Prop :=
  n.isUser = true →
    n.x = .num (w / 2) ∧ n.y = .num (h / 2) ∧
    n.fx = some (.num (w / 2)) ∧ n.fy = some (.num (h / 2))

theorem radialUpdate_anchorOK (s : ℚ → ℚ) (w h alpha : ℚ) (n : SimNode)
    (hn : anchorOK w h n) : anchorOK w h (radialUpdate s w h alpha n) := by
  cases hdeg : n.degree with
  | none => simpa [radialUpdate, hdeg] using hn
  | some d =>
    intro hu
    simp only [radialUpdate, hdeg] at hu ⊢
    exact hn hu

theorem kickNode_anchorOK (w h : ℚ) (k : JNum × JNum) (n : SimNode)
    (hn : anchorOK w h n) : anchorOK w h (kickNode k n) := by
  intro hu
  simp only [kickNode] at hu ⊢
  exact hn hu

theorem integrateNode_anchorOK (w h : ℚ) (n : SimNode)
    (hn : anchorOK w h n) : anchorOK w h (integrateNode n) := by
  intro hu
  simp only [integrateNode] at hu ⊢
  obtain ⟨hx, hy, hfx, hfy⟩ := hn hu
  simp [hfx, hfy]

theorem onDragStart_anchorOK (w h : ℚ) (n : SimNode)
    (hn : anchorOK w h n) : anchorOK w h (onDragStart n) := by
  intro hu
  by_cases hiu : n.isUser
  · simpa [onDragStart, hiu] using hn hiu
  · simp [onDragStart, hiu] at hu

theorem onDragMove_anchorOK (w h px py : ℚ) (n : SimNode)
    (hn : anchorOK w h n) : anchorOK w h (onDragMove px py n) := by
  intro hu
  by_cases hiu : n.isUser
  · simpa [onDragMove, hiu] using hn hiu
  · simp [onDragMove, hiu] at hu

theorem onDragEnd_anchorOK (w h : ℚ) (n : SimNode)
    (hn : anchorOK w h n) : anchorOK w h (onDragEnd n) := by
  intro hu
  by_cases hiu : n.isUser
  · simpa [onDragEnd, hiu] using hn hiu
  · simp [onDragEnd, hiu] at hu

theorem mem_applyKick {kick : Nat → JNum × JNum} :
    ∀ {l : List SimNode} {i : Nat} {b : SimNode}, b ∈ applyKick kick i l →
      ∃ a ∈ l, ∃ j, b = kickNode (kick j) a := by
  intro l
  induction l with
  | nil => intro i b h; simp [applyKick] at h
  | cons n ns ih =>
    intro i b h
    rcases List.mem_cons.mp h with rfl | h2
    · exact ⟨n, List.mem_cons_self n ns, i, rfl⟩
    · obtain ⟨a, ha, j, rfl⟩ := ih h2
      exact ⟨a, List.mem_cons_of_mem n ha, j, rfl⟩

theorem mem_modifyAt {f : SimNode → SimNode} :
    ∀ {i : Nat} {l : List SimNode} {b : SimNode}, b ∈ modifyAt f i l →
      b ∈ l ∨ ∃ a ∈ l, b = f a := by
  intro i l
  induction l generalizing i with
  | nil => intro b h; simp [modifyAt] at h
  | cons n ns ih =>
    intro b h
    cases i with
    | zero =>
      rcases List.mem_cons.mp h with rfl | h2
      · exact Or.inr ⟨n, List.mem_cons_self n ns, rfl⟩
      · exact Or.inl (List.mem_cons_of_mem n h2)
    | succ m =>
      rcases List.mem_cons.mp h with rfl | h2
      · exact Or.inl (List.mem_cons_self b ns)
      · rcases ih h2 with h3 | ⟨a, ha, rfl⟩
        · exact Or.inl (List.mem_cons_of_mem n h3)
        · exact Or.inr ⟨a, List.mem_cons_of_mem n ha, rfl⟩

theorem applyStep_anchorOK (s : ℚ → ℚ) (w h : ℚ) (st : Step)
    (nodes : List SimNode) (hall : ∀ n ∈ nodes, anchorOK w h n) :
    ∀ n ∈ applyStep s w h st nodes, anchorOK w h n := by
  intro n hn
  cases st with
  | tick alpha kick =>
    simp only [applyStep] at hn
    obtain ⟨m, hm, rfl⟩ := List.mem_map.mp hn
    obtain ⟨a, ha, j, rfl⟩ := mem_applyKick hm
    obtain ⟨b, hb, rfl⟩ := List.mem_map.mp ha
    exact integrateNode_anchorOK w h _
      (kickNode_anchorOK w h _ _ (radialUpdate_anchorOK s w h alpha b (hall b hb)))
  | dragStart i =>
    rcases mem_modifyAt hn with h2 | ⟨a, ha, rfl⟩
    · exact hall n h2
    · exact onDragStart_anchorOK w h a (hall a ha)
  | dragMove i px py =>
    rcases mem_modifyAt hn with h2 | ⟨a, ha, rfl⟩
    · exact hall n h2
    · exact onDragMove_anchorOK w h px py a (hall a ha)
  | dragEnd i =>
    rcases mem_modifyAt hn with h2 | ⟨a, ha, rfl⟩
    · exact hall n h2
    · exact onDragEnd_anchorOK w h a (hall a ha)

theorem runSteps_anchorOK (s : ℚ → ℚ) (w h : ℚ) (steps : List Step) :
    ∀ init : List SimNode, (∀ n ∈ init, anchorOK w h n) →
      ∀ n ∈ runSteps s w h init steps, anchorOK w h n := by
  induction steps with
  | nil => intro init hinit; simpa [runSteps] using hinit
  | cons st rest ih =>
    intro init hinit n hn
    exact ih (applyStep s w h st init) (applyStep_anchorOK s w h st init hinit) n hn

theorem connectionNodesAux_isUser (ctx : BuildCtx) (all : List ConnectionNode) :
    ∀ (k : Nat) (l : List ConnectionNode),
      ∀ n ∈ connectionNodesAux ctx all k l, n.isUser = false := by
  intro k l
  induction l generalizing k with
  | nil => intro n hn; simp [connectionNodesAux] at hn
  | cons c cs ih =>
    intro n hn
    rcases List.mem_cons.mp hn with rfl | h2
    · rfl
    · exact ih (k + 1) n h2

theorem buildNodes_anchorOK (ctx : BuildCtx) (conns : List ConnectionNode) :
    ∀ n ∈ buildNodes ctx conns, anchorOK ctx.w ctx.h n := by
  intro n hn
  rcases List.mem_cons.mp hn with rfl | h2
  · intro _
    exact ⟨rfl, rfl, rfl, rfl⟩
  · intro hu
    rw [connectionNodesAux_isUser ctx conns 0 conns n h2] at hu
    cases hu

/-- C1: in any run of the simulation — any interleaving of ticks (with
arbitrary built-in force contributions) and drag events — every user node in
the state has position exactly the viewport center: it is built pinned there,
the radial force skips it, the built-in forces only touch velocities, drag
handlers return it unchanged, and d3's integration snaps a pinned node back to
its pin. -/
theorem anchor_invariance (ctx : BuildCtx) (s : ℚ → ℚ)
    (conns : List ConnectionNode) (steps : List Step) (n : SimNode)
    (hn : n ∈ runSteps s ctx.w ctx.h (buildNodes ctx conns) steps)
    (hu : n.isUser = true) :
    n.x = .num (ctx.w / 2) ∧ n.y = .num (ctx.h / 2) := by
  have h := runSteps_anchorOK s ctx.w ctx.h steps (buildNodes ctx conns)
    (buildNodes_anchorOK ctx conns) n hn hu
  exact ⟨h.1, h.2.1⟩

/-- Witness for `anchor_invariance`: an 800×600 viewport, no connections, a
drag sequence aimed at the anchor's index; the anchor is still at (400, 300). -/
theorem anchor_invariance_witness :
    userNode 800 600 ∈
      runSteps (fun q => q) 800 600
        (buildNodes ⟨3, 800, 600, fun _ => 0, fun _ => 0, fun _ => 0, fun _ => none⟩ [])
        [Step.dragStart 0, Step.dragMove 0 5 6, Step.dragEnd 0] ∧
    (userNode 800 600).x = .num (800 / 2) ∧ (userNode 800 600).y = .num (600 / 2) :=
  ⟨by
    simp [runSteps, applyStep, modifyAt, onDragStart, onDragMove, onDragEnd,
      buildNodes, connectionNodes, connectionNodesAux, userNode],
    anchor_invariance ⟨3, 800, 600, fun _ => 0, fun _ => 0, fun _ => 0, fun _ => none⟩
      (fun q => q) []
      [Step.dragStart 0, Step.dragMove 0 5 6, Step.dragEnd 0]
      (userNode 800 600)
      (by
        simp [runSteps, applyStep, modifyAt, onDragStart, onDragMove, onDragEnd,
          buildNodes, connectionNodes, connectionNodesAux, userNode])
      rfl⟩

theorem nan_sub (x : JNum) : JNum.nan - x = JNum.nan := rfl

theorem nan_mul (x : JNum) : JNum.nan * x = JNum.nan := rfl

theorem num_mul_nan (a : ℚ) : JNum.num a * JNum.nan = JNum.nan := rfl

theorem num_add_nan (a : ℚ) : JNum.num a + JNum.nan = JNum.nan := rfl

/-- Whatever `x` is, `x || d` with a finite default is finite. -/
theorem jsOr_num_default (x : JNum) (d : ℚ) : ∃ v : ℚ, jsOr x (.num d) = .num v := by
  cases x with
  | num a =>
    by_cases h : a = 0
    · exact ⟨d, by simp [jsOr, h]⟩
    · exact ⟨a, by simp [jsOr, h]⟩
  | nan => exact ⟨d, rfl⟩

/-- On finite coordinates the guarded radial divisor is a finite nonzero
rational. -/
theorem radialDivisor_num (s : ℚ → ℚ) (p r : ℚ) :
    ∃ q : ℚ, q ≠ 0 ∧ radialDivisor s (.num p) (.num r) = .num q := by
  rw [radialDivisor, JNum.num_mul, JNum.num_mul, JNum.num_add]
  have hnn : ¬(p * p + r * r < 0) := by nlinarith
  by_cases h : s (p * p + r * r) = 0
  · exact ⟨1, one_ne_zero, by simp [jsqrt, hnn, jsOr, h]⟩
  · exact ⟨s (p * p + r * r), h, by simp [jsqrt, hnn, jsOr, h]⟩

/-- C8 amended: the radial-force divisor is never zero and never non-finite
(a zero or non-finite distance is replaced by 1, in particular at the exact
center); and for a node with a defined finite position *and a recognised
degree in {1,2,3}* the radial force produces finite velocity values. (For an
unrecognised degree the divisor is still fine but the missing target radius
makes the increments non-finite — see the counterexample.) -/
theorem radial_force_guard (s : ℚ → ℚ) (hs0 : s 0 = 0) (w h alpha a b : ℚ)
    (n : SimNode) (hx : n.x = .num a) (hy : n.y = .num b)
    (d : Nat) (hd : n.degree = some d) (hdk : d = 1 ∨ d = 2 ∨ d = 3) :
    (∀ dx dy : JNum, radialDivisor s dx dy ≠ .num 0 ∧ radialDivisor s dx dy ≠ .nan) ∧
    (a = w / 2 → b = h / 2 →
      radialDivisor s (n.x - .num (w / 2)) (n.y - .num (h / 2)) = .num 1) ∧
    (radialUpdate s w h alpha n).vx ≠ .nan ∧ (radialUpdate s w h alpha n).vy ≠ .nan := by
  refine ⟨?_, ?_, ?_⟩
  · intro dx dy
    rw [radialDivisor]
    cases jsqrt s (dx * dx + dy * dy) with
    | num q =>
      by_cases hq : q = 0
      · simp [jsOr, hq]
      · simp [jsOr, hq]
    | nan => simp [jsOr]
  · intro ha hb
    subst ha
    subst hb
    rw [hx, hy, JNum.num_sub, JNum.num_sub, radialDivisor,
      JNum.num_mul, JNum.num_mul, JNum.num_add]
    simp [jsqrt, jsOr, hs0]
  · obtain ⟨q, hq, hdist⟩ := radialDivisor_num s (a - w / 2) (b - h / 2)
    obtain ⟨t, ht⟩ : ∃ t : ℚ, forceTargetRadius w h d = .num t := by
      rcases hdk with rfl | rfl | rfl
      · exact ⟨_, rfl⟩
      · exact ⟨_, rfl⟩
      · exact ⟨_, rfl⟩
    obtain ⟨v, hv⟩ := jsOr_num_default n.vx 0
    obtain ⟨u, hu⟩ := jsOr_num_default n.vy 0
    have hupd : radialUpdate s w h alpha n =
        { n with
          vx := jsOr n.vx (.num 0) +
            (n.x - .num (w / 2)) / radialDivisor s (n.x - .num (w / 2)) (n.y - .num (h / 2)) *
              (forceTargetRadius w h d - radialDivisor s (n.x - .num (w / 2)) (n.y - .num (h / 2))) *
              .num (alpha * (3 / 20)),
          vy := jsOr n.vy (.num 0) +
            (n.y - .num (h / 2)) / radialDivisor s (n.x - .num (w / 2)) (n.y - .num (h / 2)) *
              (forceTargetRadius w h d - radialDivisor s (n.x - .num (w / 2)) (n.y - .num (h / 2))) *
              .num (alpha * (3 / 20)) } := by
      rw [radialUpdate, hd]
    rw [hupd, hx, hy, JNum.num_sub, JNum.num_sub, hdist, ht, hv, hu,
      JNum.num_sub, JNum.num_div _ _ hq, JNum.num_div _ _ hq,
      JNum.num_mul, JNum.num_mul, JNum.num_mul, JNum.num_mul,
      JNum.num_add, JNum.num_add]
    constructor <;> simp

/-- Witness for `radial_force_guard`: a ring-1 node sitting exactly at the
center of an 800×600 viewport (so distance 0), with `sqrt 0 = 0`. -/
theorem radial_force_guard_witness :
    (fun q : ℚ => q) 0 = 0 ∧
    (⟨"n1", false, some 1, .num 400, .num 300, .num 0, .num 0, none, none⟩ : SimNode).degree =
      some 1 ∧
    ((∀ dx dy : JNum, radialDivisor (fun q => q) dx dy ≠ .num 0 ∧
        radialDivisor (fun q => q) dx dy ≠ .nan) ∧
      ((400 : ℚ) = 800 / 2 → (300 : ℚ) = 600 / 2 →
        radialDivisor (fun q => q)
          ((⟨"n1", false, some 1, .num 400, .num 300, .num 0, .num 0, none, none⟩ : SimNode).x -
            .num (800 / 2))
          ((⟨"n1", false, some 1, .num 400, .num 300, .num 0, .num 0, none, none⟩ : SimNode).y -
            .num (600 / 2)) = .num 1) ∧
      (radialUpdate (fun q => q) 800 600 1
        ⟨"n1", false, some 1, .num 400, .num 300, .num 0, .num 0, none, none⟩).vx ≠ .nan ∧
      (radialUpdate (fun q => q) 800 600 1
        ⟨"n1", false, some 1, .num 400, .num 300, .num 0, .num 0, none, none⟩).vy ≠ .nan) :=
  ⟨rfl, rfl,
    radial_force_guard (fun q => q) rfl 800 600 1 400 300
      ⟨"n1", false, some 1, .num 400, .num 300, .num 0, .num 0, none, none⟩
      rfl rfl 1 rfl (Or.inl rfl)⟩

/-- C8 counterexample: a node with a perfectly defined finite position
(the exact center of an 800×600 viewport) but degree 4 still gets a
non-finite velocity from the radial force — the divisor guard holds, but the
undefined target radius poisons the increment, so "finite velocity increments
for every node with a defined finite position" fails as stated. -/
theorem radial_force_nan_counterexample :
    (⟨"c4", false, some 4, .num 400, .num 300, .num 0, .num 0, none, none⟩ : SimNode).x =
      .num 400 ∧
    (radialUpdate (fun q => q) 800 600 1
      ⟨"c4", false, some 4, .num 400, .num 300, .num 0, .num 0, none, none⟩).vx = .nan := by
  refine ⟨rfl, ?_⟩
  have hupd : radialUpdate (fun q => q) 800 600 1
      (⟨"c4", false, some 4, .num 400, .num 300, .num 0, .num 0, none, none⟩ : SimNode) =
      { (⟨"c4", false, some 4, .num 400, .num 300, .num 0, .num 0, none, none⟩ : SimNode) with
        vx := jsOr (.num 0) (.num 0) +
          (JNum.num 400 - .num (800 / 2)) /
              radialDivisor (fun q => q) (JNum.num 400 - .num (800 / 2))
                (JNum.num 300 - .num (600 / 2)) *
            (forceTargetRadius 800 600 4 -
              radialDivisor (fun q => q) (JNum.num 400 - .num (800 / 2))
                (JNum.num 300 - .num (600 / 2))) *
            .num (1 * (3 / 20)),
        vy := jsOr (.num 0) (.num 0) +
          (JNum.num 300 - .num (600 / 2)) /
              radialDivisor (fun q => q) (JNum.num 400 - .num (800 / 2))
                (JNum.num 300 - .num (600 / 2)) *
            (forceTargetRadius 800 600 4 -
              radialDivisor (fun q => q) (JNum.num 400 - .num (800 / 2))
                (JNum.num 300 - .num (600 / 2))) *
            .num (1 * (3 / 20)) } := by
    rw [radialUpdate]
  have hdx : JNum.num 400 - JNum.num (800 / 2) = JNum.num 0 := by
    rw [JNum.num_sub]
    norm_num
  have hdy : JNum.num 300 - JNum.num (600 / 2) = JNum.num 0 := by
    rw [JNum.num_sub]
    norm_num
  have hdist : radialDivisor (fun q : ℚ => q) (JNum.num 0) (JNum.num 0) = .num 1 := by
    rw [radialDivisor, JNum.num_mul, JNum.num_add]
    norm_num [jsqrt, jsOr]
  have htarget : forceTargetRadius 800 600 4 = .nan := rfl
  rw [hupd, hdx, hdy, hdist, htarget]
  rw [nan_sub, JNum.num_div _ _ one_ne_zero]
  norm_num [num_mul_nan, nan_mul, num_add_nan, jsOr]

/-- Modelled from the spec: `selectConnection` comes from
`ConnectionsContext`, which is not under `src/`; per spec §4.5, clicking a
node "toggles it as the selected node (click again or click background clears
selection)", and passing no node always clears the selection. Selection state
is the id of the selected connection, `none` when nothing is selected. -/
def selectConnection (sel : Option String) (clicked : Option String) : Option String :=
  match clicked with
  | none => none
  | some i => if sel = some i then none else some i

/-- Node click handler (part_002 lines 308-312): the user node is ignored,
propagation is stopped, and the clicked connection is forwarded to
`selectConnection`. -/
def handleNodeClick (sel : Option String) (n : SimNode) : Option String :=
  if n.isUser then sel else selectConnection sel (some n.id)

/-- Background click handler (part_002 lines 377-380):
`svg.on('click', () => selectConnection(null))`. Node clicks call
`stopPropagation`, so they never also fire this handler. -/
def handleBackgroundClick (sel : Option String) : Option String :=
  selectConnection sel none

/-- C4: clicking an already-selected leaf node again returns the selection to
none, and clicking the background clears any selection. -/
theorem click_toggle_and_background_clear (n : SimNode) (hu : n.isUser = false)
    (sel : Option String) :
    handleNodeClick (handleNodeClick none n) n = none ∧
    handleBackgroundClick sel = none := by
  constructor
  · simp [handleNodeClick, hu, selectConnection]
  · rfl

/-- Witness for `click_toggle_and_background_clear` on a concrete leaf node
with a selection present. -/
theorem click_toggle_witness :
    (⟨"leaf", false, some 1, .num 0, .num 0, .num 0, .num 0, none, none⟩ : SimNode).isUser =
      false ∧
    handleNodeClick
        (handleNodeClick none
          ⟨"leaf", false, some 1, .num 0, .num 0, .num 0, .num 0, none, none⟩)
        ⟨"leaf", false, some 1, .num 0, .num 0, .num 0, .num 0, none, none⟩ = none ∧
    handleBackgroundClick (some "other") = none :=
  ⟨rfl,
    click_toggle_and_background_clear
      ⟨"leaf", false, some 1, .num 0, .num 0, .num 0, .num 0, none, none⟩ rfl
      (some "other")⟩

/-- An explicit relation from the external `links` collection
(`{source, target}` id pair). -/
structure RelLink where
  source : String
  target : String
deriving DecidableEq

/-- `nodeById.get(id)` presence check on the built node array. -/
def hasNode (nodes : List SimNode) (id : String) : Bool :=
  nodes.any (fun n => n.id == id)

/-- The implicit anchor links (part_002 lines 136-144): one link from the
user node to every degree-1 connection node; links are identified here by
their (source id, target id) pair. -/
def implicitSimLinks (connNodes : List SimNode) : List (String × String) :=
  connNodes.filterMap (fun n => if n.degree = some 1 then some ("USER", n.id) else none)

/-- The explicit links (part_002 lines 146-152): a relation is pushed exactly
when both endpoint ids resolve in `nodeById`; otherwise it is skipped without
any error. -/
def explicitSimLinks (nodes : List SimNode) (rels : List RelLink) : List (String × String) :=
  rels.filterMap (fun l =>
    if hasNode nodes l.source && hasNode nodes l.target then some (l.source, l.target)
    else none)

/-- The full `simLinks` array for a build. -/
def simLinks (ctx : BuildCtx) (conns : List ConnectionNode) (rels : List RelLink) :
    List (String × String) :=
  implicitSimLinks (connectionNodes ctx conns) ++
    explicitSimLinks (buildNodes ctx conns) rels

theorem mem_implicitSimLinks_hasNode {connNodes : List SimNode}
    {p : String × String} (hp : p ∈ implicitSimLinks connNodes) :
    ∃ n ∈ connNodes, n.id = p.2 ∧ n.degree = some 1 ∧ p.1 = "USER" := by
  obtain ⟨n, hn, hf⟩ := List.mem_filterMap.mp hp
  by_cases hd : n.degree = some 1
  · rw [if_pos hd] at hf
    obtain ⟨h1, h2⟩ := Prod.mk.injEq .. ▸ Option.some.injEq .. ▸ hf
    exact ⟨n, hn, by rw [← h2], hd, by rw [← h1]⟩
  · rw [if_neg hd] at hf
    cases hf

/-- C6: building the link set drops every relation with an unresolvable
endpoint — the pair appears nowhere in `simLinks`, and the build is total, so
nothing is thrown — while every relation whose two ids are both present is
included. -/
theorem drop_missing_reference (ctx : BuildCtx) (conns : List ConnectionNode)
    (rels : List RelLink) (l : RelLink) (hl : l ∈ rels) :
    ((hasNode (buildNodes ctx conns) l.source = false ∨
        hasNode (buildNodes ctx conns) l.target = false) →
      (l.source, l.target) ∉ simLinks ctx conns rels) ∧
    (hasNode (buildNodes ctx conns) l.source = true →
      hasNode (buildNodes ctx conns) l.target = true →
      (l.source, l.target) ∈ simLinks ctx conns rels) := by
  constructor
  · intro hmiss hmem
    rcases List.mem_append.mp hmem with him | hex
    · -- an implicit link's endpoints are both present in the built node array
      obtain ⟨n, hn, hnid, hdeg, hsrc⟩ := mem_implicitSimLinks_hasNode him
      have hsrcPresent : hasNode (buildNodes ctx conns) l.source = true := by
        rw [hasNode]
        refine List.any_eq_true.mpr ⟨userNode ctx.w ctx.h, List.mem_cons_self _ _, ?_⟩
        simp only [userNode, beq_iff_eq]
        exact hsrc.symm
      have htgtPresent : hasNode (buildNodes ctx conns) l.target = true := by
        rw [hasNode]
        refine List.any_eq_true.mpr ⟨n, List.mem_cons_of_mem _ hn, ?_⟩
        simp only [beq_iff_eq]
        exact hnid
      rcases hmiss with hm | hm
      · rw [hsrcPresent] at hm
        cases hm
      · rw [htgtPresent] at hm
        cases hm
    · obtain ⟨l2, _, hf⟩ := List.mem_filterMap.mp hex
      by_cases hc : hasNode (buildNodes ctx conns) l2.source &&
          hasNode (buildNodes ctx conns) l2.target
      · rw [if_pos hc] at hf
        obtain ⟨h1, h2⟩ := Prod.mk.injEq .. ▸ Option.some.injEq .. ▸ hf
        obtain ⟨hs, ht⟩ := Bool.and_eq_true_iff.mp hc
        rcases hmiss with hm | hm
        · rw [← h1, hs] at hm
          cases hm
        · rw [← h2, ht] at hm
          cases hm
      · rw [if_neg hc] at hf
        cases hf
  · intro hs ht
    refine List.mem_append.mpr (Or.inr ?_)
    refine List.mem_filterMap.mpr ⟨l, hl, ?_⟩
    rw [if_pos (by rw [hs, ht]; rfl)]

/-- Witness for `drop_missing_reference`: one connection `"a"`, a relation
`USER → a` whose endpoints are both present, hence included. -/
theorem drop_missing_reference_witness :
    (⟨"USER", "a"⟩ : RelLink) ∈ [(⟨"USER", "a"⟩ : RelLink)] ∧
    ("USER", "a") ∈
      simLinks ⟨3, 800, 600, fun _ => 0, fun _ => 0, fun _ => 0, fun _ => none⟩
        [⟨"a", 2, none⟩] [⟨"USER", "a"⟩] :=
  ⟨List.mem_singleton.mpr rfl,
    (drop_missing_reference ⟨3, 800, 600, fun _ => 0, fun _ => 0, fun _ => 0, fun _ => none⟩
      [⟨"a", 2, none⟩] [⟨"USER", "a"⟩] ⟨"USER", "a"⟩
      (List.mem_singleton.mpr rfl)).2 (by decide) (by decide)⟩

/-- The Position Store starts empty (`useRef<Map<…>>(new Map())`,
part_002 line 51). -/
def emptyStore : String → Option (JNum × JNum) := fun _ => none

/-- The tick handler's persistence pass (part_002 lines 392-397): for every
node that is not the user node, write its current (x, y) under its id; later
entries overwrite earlier ones like `Map.set`. Positions are always set after
the build, so the `x !== undefined` guard never fires (a NaN position would
pass it) and is omitted. There is no pin check: a node held by an active drag
is written like any other. -/
def tickStoreUpdate (nodes : List SimNode) (store : String → Option (JNum × JNum)) :
    String → Option (JNum × JNum) :=
  nodes.foldl
    (fun st n =>
      if n.isUser then st
      else fun k => if k = n.id then some (n.x, n.y) else st k)
    store

theorem tickStoreUpdate_other (k : String) :
    ∀ (nodes : List SimNode) (store : String → Option (JNum × JNum)),
      (∀ m ∈ nodes, m.isUser = false → m.id ≠ k) →
      tickStoreUpdate nodes store k = store k := by
  intro nodes
  induction nodes with
  | nil => intro store _; rfl
  | cons n ns ih =>
    intro store hk
    have hstep : tickStoreUpdate (n :: ns) store =
        tickStoreUpdate ns
          (if n.isUser then store
           else fun k2 => if k2 = n.id then some (n.x, n.y) else store k2) := by
      rw [tickStoreUpdate, tickStoreUpdate, List.foldl_cons]
    rw [hstep]
    by_cases hu : n.isUser
    · rw [if_pos hu]
      exact ih store (fun m hm => hk m (List.mem_cons_of_mem n hm))
    · rw [if_neg hu]
      rw [ih _ (fun m hm => hk m (List.mem_cons_of_mem n hm))]
      have hne : n.id ≠ k :=
        hk n (List.mem_cons_self n ns) (Bool.not_eq_true _ ▸ hu)
      rw [if_neg (fun he => hne he.symm)]

theorem tickStoreUpdate_mem (n : SimNode) :
    ∀ (nodes : List SimNode) (store : String → Option (JNum × JNum)),
      n ∈ nodes → n.isUser = false → (nodes.map SimNode.id).Nodup →
      tickStoreUpdate nodes store n.id = some (n.x, n.y) := by
  intro nodes
  induction nodes with
  | nil => intro store h; cases h
  | cons m ms ih =>
    intro store hmem hnu hnd
    rw [List.map_cons, List.nodup_cons] at hnd
    have hstep : tickStoreUpdate (m :: ms) store =
        tickStoreUpdate ms
          (if m.isUser then store
           else fun k2 => if k2 = m.id then some (m.x, m.y) else store k2) := by
      rw [tickStoreUpdate, tickStoreUpdate, List.foldl_cons]
    rcases List.mem_cons.mp hmem with rfl | h2
    · rw [hstep, if_neg (by rw [hnu]; exact Bool.false_ne_true)]
      rw [tickStoreUpdate_other n.id ms _ ?_]
      · simp
      · intro m2 hm2 _ he
        exact hnd.1 (he ▸ List.mem_map_of_mem SimNode.id hm2)
    · rw [hstep]
      by_cases hmu : m.isUser
      · rw [if_pos hmu]
        exact ih store h2 hnu hnd.2
      · rw [if_neg hmu]
        exact ih _ h2 hnu hnd.2

theorem foldStore_user_none :
    ∀ (ticks : List (List SimNode)) (st : String → Option (JNum × JNum)),
      st "USER" = none →
      (∀ ns ∈ ticks, ∀ m ∈ ns, m.isUser = false → m.id ≠ "USER") →
      (ticks.foldl (fun st2 ns => tickStoreUpdate ns st2) st) "USER" = none := by
  intro ticks
  induction ticks with
  | nil => intro st h _; exact h
  | cons ns rest ih =>
    intro st h hanchor
    rw [List.foldl_cons]
    refine ih _ ?_ (fun ns2 h2 => hanchor ns2 (List.mem_cons_of_mem ns h2))
    rw [tickStoreUpdate_other "USER" ns st
      (fun m hm hmu => hanchor ns (List.mem_cons_self ns rest) m hm hmu)]
    exact h

/-- C9: a tick's persistence pass writes the current (x, y) of every non-user
node — including one pinned by an active drag — under its id (ids are unique
per view); over any history of tick updates starting from the empty store the
anchor's id "USER" never appears (no connection node carries that id); and a
rebuild against the updated store re-seeds such a node at exactly the stored
coordinates. -/
theorem tick_persists_positions (nodes : List SimNode)
    (store : String → Option (JNum × JNum)) (n : SimNode)
    (hmem : n ∈ nodes) (hnu : n.isUser = false)
    (hnd : (nodes.map SimNode.id).Nodup)
    (ticks : List (List SimNode))
    (hanchor : ∀ ns ∈ ticks, ∀ m ∈ ns, m.isUser = false → m.id ≠ "USER") :
    tickStoreUpdate nodes store n.id = some (n.x, n.y) ∧
    (ticks.foldl (fun st ns => tickStoreUpdate ns st) emptyStore) "USER" = none ∧
    ∀ (pi w h : ℚ) (cosF sinF : ℚ → ℚ) (rnd : Nat → ℚ) (r : ℚ)
      (conns : List ConnectionNode) (conn : ConnectionNode),
      conn.id = n.id →
      (buildConnNode ⟨pi, w, h, cosF, sinF, rnd, tickStoreUpdate nodes store⟩
        conns r conn).x = n.x ∧
      (buildConnNode ⟨pi, w, h, cosF, sinF, rnd, tickStoreUpdate nodes store⟩
        conns r conn).y = n.y := by
  have hwrite := tickStoreUpdate_mem n nodes store hmem hnu hnd
  refine ⟨hwrite, foldStore_user_none ticks emptyStore rfl hanchor, ?_⟩
  intro pi w h cosF sinF rnd r conns conn hid
  have hhit : tickStoreUpdate nodes store conn.id = some (n.x, n.y) := by
    rw [hid]
    exact hwrite
  constructor <;> simp [buildConnNode, hhit]

/-- Witness for `tick_persists_positions`: an anchor plus one drag-pinned
leaf at (7, 9); the tick writes (7, 9) under "a", "USER" stays absent, and a
rebuild of `"a"` seeds at (7, 9). -/
theorem tick_persists_positions_witness :
    (⟨"a", false, some 1, .num 7, .num 9, .num 0, .num 0, some (.num 7),
        some (.num 9)⟩ : SimNode) ∈
      ([⟨"USER", true, none, .num 400, .num 300, .num 0, .num 0, none, none⟩,
        ⟨"a", false, some 1, .num 7, .num 9, .num 0, .num 0, some (.num 7),
          some (.num 9)⟩] : List SimNode) ∧
    tickStoreUpdate
        [⟨"USER", true, none, .num 400, .num 300, .num 0, .num 0, none, none⟩,
          ⟨"a", false, some 1, .num 7, .num 9, .num 0, .num 0, some (.num 7),
            some (.num 9)⟩] emptyStore "a" = some (.num 7, .num 9) ∧
    ([[(⟨"USER", true, none, .num 400, .num 300, .num 0, .num 0, none, none⟩ : SimNode),
        ⟨"a", false, some 1, .num 7, .num 9, .num 0, .num 0, some (.num 7),
          some (.num 9)⟩]].foldl (fun st ns => tickStoreUpdate ns st) emptyStore)
      "USER" = none ∧
    (buildConnNode
        ⟨3, 800, 600, fun _ => 0, fun _ => 0, fun _ => 0,
          tickStoreUpdate
            [⟨"USER", true, none, .num 400, .num 300, .num 0, .num 0, none, none⟩,
              ⟨"a", false, some 1, .num 7, .num 9, .num 0, .num 0, some (.num 7),
                some (.num 9)⟩] emptyStore⟩
        [] 0 ⟨"a", 1, none⟩).x = .num 7 := by
  have h := tick_persists_positions
    [⟨"USER", true, none, .num 400, .num 300, .num 0, .num 0, none, none⟩,
      ⟨"a", false, some 1, .num 7, .num 9, .num 0, .num 0, some (.num 7),
        some (.num 9)⟩]
    emptyStore
    ⟨"a", false, some 1, .num 7, .num 9, .num 0, .num 0, some (.num 7), some (.num 9)⟩
    (by decide) rfl (by decide)
    [[⟨"USER", true, none, .num 400, .num 300, .num 0, .num 0, none, none⟩,
      ⟨"a", false, some 1, .num 7, .num 9, .num 0, .num 0, some (.num 7),
        some (.num 9)⟩]]
    (by decide)
  exact ⟨by decide, h.1, h.2.1,
    (h.2.2 3 800 600 (fun _ => 0) (fun _ => 0) (fun _ => 0) 0 [] ⟨"a", 1, none⟩ rfl).1⟩

/-- An analyzed email as the category grouping consumes it (`AnalyzedEmail`,
part_002 lines 578-600): only the id and the `from` header matter here;
`from` is renamed `fromField` (reserved word). -/
structure AnalyzedEmail where
  id : String
  fromField : String
deriving DecidableEq

/-- A category entry of the overview graph (part_002 lines 645-651). -/
structure EmailCategory where
  id : String
  label : String
  emails : List AnalyzedEmail
  count : Nat
  color : String
deriving DecidableEq

/-- The palette (part_002 lines 603-606). -/
def CATEGORY_COLORS : List String :=
  ["#bf5af2", "#ff6b6b", "#ffc078", "#74c0fc", "#63e6be", "#ffd43b", "#ff922b", "#da77f2"]

/-- `getCategoryColor` (part_002 lines 608-610):
`CATEGORY_COLORS[index % CATEGORY_COLORS.length]`. -/
def getCategoryColor (i : Nat) : String :=
  CATEGORY_COLORS.getD (i % CATEGORY_COLORS.length) ""

/-- One `Map.set`-style insertion into the category buckets (part_002 lines
634-640): append to the existing bucket of the category, else create a new
bucket at the end (JS `Map` preserves insertion order). -/
def insertEmail (cat : String) (e : AnalyzedEmail) :
    List (String × List AnalyzedEmail) → List (String × List AnalyzedEmail)
  | [] => [(cat, [e])]
  | q :: rest =>
    if q.1 = cat then (q.1, q.2 ++ [e]) :: rest
    else q :: insertEmail cat e rest

/-- The `categoryMap` grouping pass (part_002 lines 632-640), with the
`extractCategory` regex logic abstracted as `extract`. -/
def groupByCategory (extract : String → String) (emails : List AnalyzedEmail) :
    List (String × List AnalyzedEmail) :=
  emails.foldl (fun acc e => insertEmail (extract e.fromField) e acc) []

/-- Every email in a bucket extracted to that bucket's category. -/
def bucketOK (extract : String → String) (p : String × List AnalyzedEmail) : Prop :=
  ∀ e ∈ p.2, extract e.fromField = p.1

theorem insertEmail_bucketOK (extract : String → String) (e : AnalyzedEmail) :
    ∀ (acc : List (String × List AnalyzedEmail)),
      (∀ p ∈ acc, bucketOK extract p) →
      ∀ p ∈ insertEmail (extract e.fromField) e acc, bucketOK extract p := by
  intro acc
  induction acc with
  | nil =>
    intro _ p hp
    rw [insertEmail] at hp
    rcases List.mem_singleton.mp hp with rfl
    intro e2 he2
    rcases List.mem_singleton.mp he2 with rfl
    rfl
  | cons q qs ih =>
    intro hall p hp
    rw [insertEmail] at hp
    by_cases hq : q.1 = extract e.fromField
    · rw [if_pos hq] at hp
      rcases List.mem_cons.mp hp with rfl | h2
      · intro e2 he2
        rcases List.mem_append.mp he2 with h3 | h3
        · exact hall q (List.mem_cons_self q qs) e2 h3
        · rcases List.mem_singleton.mp h3 with rfl
          exact hq.symm
      · exact hall p (List.mem_cons_of_mem q h2)
    · rw [if_neg hq] at hp
      rcases List.mem_cons.mp hp with rfl | h2
      · exact hall p (List.mem_cons_self p qs)
      · exact ih (fun p2 hp2 => hall p2 (List.mem_cons_of_mem q hp2)) p h2

theorem groupByCategory_bucketOK (extract : String → String)
    (emails : List AnalyzedEmail) :
    ∀ p ∈ groupByCategory extract emails, bucketOK extract p := by
  suffices h : ∀ (l : List AnalyzedEmail) (acc : List (String × List AnalyzedEmail)),
      (∀ p ∈ acc, bucketOK extract p) →
      ∀ p ∈ l.foldl (fun acc e => insertEmail (extract e.fromField) e acc) acc,
        bucketOK extract p by
    exact h emails [] (by intro p hp; cases hp)
  intro l
  induction l with
  | nil => intro acc hacc; simpa using hacc
  | cons e rest ih =>
    intro acc hacc
    rw [List.foldl_cons]
    exact ih _ (insertEmail_bucketOK extract e acc hacc)

/-- The `.map(([label, emailList], index) => …)` pass (part_002 lines
645-651), `i` being the running index; `slug` abstracts the
`label.toLowerCase().replace(/\s+/g, '-')` id computation. -/
def categoriesAux (slug : String → String) :
    Nat → List (String × List AnalyzedEmail) → List EmailCategory
  | _, [] => []
  | i, p :: ps =>
    { id := slug p.1, label := p.1, emails := p.2, count := p.2.length,
      color := getCategoryColor i } :: categoriesAux slug (i + 1) ps

/-- The `categories` memo (part_002 lines 632-652): group by extracted
category, sort descending by member count (JS `sort` is stable; a stable
insertion sort realises the same order), truncate to the first 8, then map to
category records. -/
def categories (extract slug : String → String) (emails : List AnalyzedEmail) :
    List EmailCategory :=
  categoriesAux slug 0
    (((groupByCategory extract emails).insertionSort
        (fun a b => b.2.length ≤ a.2.length)).take 8)

/-- A node of the email overview graph (part_002 lines 563-571 and 696-708). -/
structure EmailSimNode where
  id : String
  isCenter : Bool
  category : Option String
  count : Option Nat
  color : Option String
  emails : List AnalyzedEmail
  x : ℚ
  y : ℚ
deriving DecidableEq

/-- The `categoryNodes` array (part_002 lines 696-708): one node per category,
seeded on a circle of radius 120, angle `(i / categories.length) * π * 2`. -/
def categoryNodesAux (pi w h : ℚ) (cosF sinF : ℚ → ℚ) (ncats : Nat) :
    Nat → List EmailCategory → List EmailSimNode
  | _, [] => []
  | i, cat :: rest =>
    { id := cat.id, isCenter := false, category := some cat.label,
      count := some cat.count, color := some cat.color, emails := cat.emails,
      x := w / 2 + cosF (((i : ℚ) / (ncats : ℚ)) * pi * 2) * 120,
      y := h / 2 + sinF (((i : ℚ) / (ncats : ℚ)) * pi * 2) * 120 } ::
      categoryNodesAux pi w h cosF sinF ncats (i + 1) rest

def categoryNodes (pi w h : ℚ) (cosF sinF : ℚ → ℚ) (cats : List EmailCategory) :
    List EmailSimNode :=
  categoryNodesAux pi w h cosF sinF cats.length 0 cats

theorem categoriesAux_length (slug : String → String) :
    ∀ (i : Nat) (l : List (String × List AnalyzedEmail)),
      (categoriesAux slug i l).length = l.length := by
  intro i l
  induction l generalizing i with
  | nil => rfl
  | cons p ps ih => simp [categoriesAux, ih]

theorem categoryNodesAux_length (pi w h : ℚ) (cosF sinF : ℚ → ℚ) (ncats : Nat) :
    ∀ (i : Nat) (l : List EmailCategory),
      (categoryNodesAux pi w h cosF sinF ncats i l).length = l.length := by
  intro i l
  induction l generalizing i with
  | nil => rfl
  | cons c cs ih => simp [categoryNodesAux, ih]

theorem mem_categoriesAux {slug : String → String} :
    ∀ {k : Nat} {l : List (String × List AnalyzedEmail)} {b : EmailCategory},
      b ∈ categoriesAux slug k l → ∃ q ∈ l, b.count = q.2.length := by
  intro k l
  induction l generalizing k with
  | nil => intro b hb; cases hb
  | cons p ps ih =>
    intro b hb
    rcases List.mem_cons.mp hb with rfl | h2
    · exact ⟨p, List.mem_cons_self p ps, rfl⟩
    · obtain ⟨q, hq, hcount⟩ := ih h2
      exact ⟨q, List.mem_cons_of_mem p hq, hcount⟩

theorem categoriesAux_sorted (slug : String → String) :
    ∀ (i : Nat) (l : List (String × List AnalyzedEmail)),
      List.Pairwise (fun a b => b.2.length ≤ a.2.length) l →
      List.Pairwise (fun a b : EmailCategory => b.count ≤ a.count)
        (categoriesAux slug i l) := by
  intro i l
  induction l generalizing i with
  | nil => intro _; exact List.Pairwise.nil
  | cons p ps ih =>
    intro hp
    rw [List.pairwise_cons] at hp
    refine List.Pairwise.cons ?_ (ih (i + 1) hp.2)
    intro b hb
    obtain ⟨q, hq, hcount⟩ := mem_categoriesAux hb
    rw [hcount]
    exact hp.1 q hq

/-- C10: the email overview graph has at most 8 category nodes — the grouped
categories are sorted by member count descending, truncated to the first 8
(so exactly `min 8 (number of distinct categories)` survive, any further
category is silently dropped), and every email lands in the bucket of its
extracted sender category. -/
theorem category_overview_limit (extract slug : String → String)
    (emails : List AnalyzedEmail) (pi w h : ℚ) (cosF sinF : ℚ → ℚ) :
    (categoryNodes pi w h cosF sinF (categories extract slug emails)).length ≤ 8 ∧
    (categories extract slug emails).length =
      min 8 (groupByCategory extract emails).length ∧
    List.Pairwise (fun a b : EmailCategory => b.count ≤ a.count)
      (categories extract slug emails) ∧
    ∀ p ∈ groupByCategory extract emails, ∀ e ∈ p.2, extract e.fromField = p.1 := by
  have hlen : (categories extract slug emails).length =
      min 8 (groupByCategory extract emails).length := by
    rw [categories, categoriesAux_length, List.length_take,
      List.length_insertionSort]
  refine ⟨?_, hlen, ?_, ?_⟩
  · rw [categoryNodes, categoryNodesAux_length, hlen]
    exact min_le_left 8 _
  · haveI : IsTotal (String × List AnalyzedEmail)
        (fun a b => b.2.length ≤ a.2.length) :=
      ⟨fun a b => le_total b.2.length a.2.length⟩
    haveI : IsTrans (String × List AnalyzedEmail)
        (fun a b => b.2.length ≤ a.2.length) :=
      ⟨fun _ _ _ h1 h2 => le_trans h2 h1⟩
    have hsorted := List.sorted_insertionSort
      (fun (a b : String × List AnalyzedEmail) => b.2.length ≤ a.2.length)
      (groupByCategory extract emails)
    exact categoriesAux_sorted slug 0 _
      (List.Pairwise.sublist (List.take_sublist 8 _) hsorted)
  · exact groupByCategory_bucketOK extract emails

/-- Witness for `category_overview_limit`: three emails over two sender
categories (identity extraction). -/
theorem category_overview_limit_witness :
    (categoryNodes 3 800 600 (fun _ => 0) (fun _ => 0)
      (categories (fun s => s) (fun s => s)
        [⟨"e1", "x"⟩, ⟨"e2", "x"⟩, ⟨"e3", "y"⟩])).length ≤ 8 ∧
    (categories (fun s => s) (fun s => s)
      [⟨"e1", "x"⟩, ⟨"e2", "x"⟩, ⟨"e3", "y"⟩]).length =
      min 8 (groupByCategory (fun s => s)
        [⟨"e1", "x"⟩, ⟨"e2", "x"⟩, ⟨"e3", "y"⟩]).length ∧
    List.Pairwise (fun a b : EmailCategory => b.count ≤ a.count)
      (categories (fun s => s) (fun s => s)
        [⟨"e1", "x"⟩, ⟨"e2", "x"⟩, ⟨"e3", "y"⟩]) ∧
    ∀ p ∈ groupByCategory (fun s => s) [⟨"e1", "x"⟩, ⟨"e2", "x"⟩, ⟨"e3", "y"⟩],
      ∀ e ∈ p.2, (fun s : String => s) e.fromField = p.1 :=
  category_overview_limit (fun s => s) (fun s => s)
    [⟨"e1", "x"⟩, ⟨"e2", "x"⟩, ⟨"e3", "y"⟩] 3 800 600 (fun _ => 0) (fun _ => 0)
